import Mathlib

/-!
Verification development for the Travel Marks route-animation app.

The definitions below are a shallow embedding of the TypeScript source
(the React component in the main application file): pure helpers are
translated as Lean functions over exact rationals or reals, the stateful
React-effect machinery is translated as explicit state-passing step
functions on a world record, and network geocoding is abstracted as an
oracle parameter.
-/

namespace TravelApp

/-- Ease-in-out cubic shaping from animateSegment:
x < 0.5 ? 4 * x * x * x : 1 - Math.pow(-2 * x + 2, 3) / 2. -/
def easeInOutCubic (x : ℚ) : ℚ :=
  if x < 1/2 then 4 * x * x * x else 1 - (-2 * x + 2)^3 / 2

/-- Raw interpolation parameter computed each running frame of animateSegment:
t = Math.min((now - startTime) / duration, 1).  startTime is fixed once when the
segment starts and is never advanced, in particular not across paused stretches. -/
def computeT (startTime duration now : ℚ) : ℚ :=
  min ((now - startTime) / duration) 1

/-- The value of t after one frame callback of animateSegment: the paused branch
returns early (t keeps its previous value, the callback merely reschedules), the
running branch recomputes t from the wall clock via computeT. -/
def frameT (isPaused : Bool) (startTime duration now tPrev : ℚ) : ℚ :=
  if isPaused then tPrev else computeT startTime duration now

/-- JavaScript Math.atan2 on the reals (ignoring signed zero and NaN). -/
noncomputable def atan2 (y x : ℝ) : ℝ :=
  if 0 < x then Real.arctan (y / x)
  else if x < 0 ∧ 0 ≤ y then Real.arctan (y / x) + Real.pi
  else if x < 0 then Real.arctan (y / x) - Real.pi
  else if 0 < y then Real.pi / 2
  else if y < 0 then -(Real.pi / 2)
  else 0

/-- calculateDistance: haversine distance between two (longitude, latitude)
pairs, Earth radius R = 6371 km, translated clause by clause from the source. -/
noncomputable def calculateDistance (coord1 coord2 : ℝ × ℝ) : ℝ :=
  let R : ℝ := 6371
  let dLat := (coord2.2 - coord1.2) * Real.pi / 180
  let dLon := (coord2.1 - coord1.1) * Real.pi / 180
  let a := Real.sin (dLat / 2) * Real.sin (dLat / 2) +
    Real.cos (coord1.2 * Real.pi / 180) * Real.cos (coord2.2 * Real.pi / 180) *
    Real.sin (dLon / 2) * Real.sin (dLon / 2)
  let c := 2 * atan2 (Real.sqrt a) (Real.sqrt (1 - a))
  R * c

/-- The accumulation loop of fetchCoords:
for (let i = 0; i < results.length - 1; i++)
  totalDist += calculateDistance(results[i], results[i + 1]). -/
noncomputable def totalDistLoop (results : List (ℝ × ℝ)) : ℝ :=
  (List.range (results.length - 1)).foldl
    (fun acc i => acc + calculateDistance (results.getD i (0, 0)) (results.getD (i + 1) (0, 0))) 0

/-- The (totalDistance, estimatedTime) pair fetchCoords stores: when more than
one coordinate resolved, the summed haversine distance and that distance divided
by 60 (assumed 60 km/h average speed, hours); otherwise (0, 0). -/
noncomputable def distanceAndEta (results : List (ℝ × ℝ)) : ℝ × ℝ :=
  if 1 < results.length then (totalDistLoop results, totalDistLoop results / 60)
  else (0, 0)

/-- The formula stated by the claim for the n ≥ 2 case: the sum of
calculateDistance over consecutive pairs c[i], c[i+1] for i in [0, n-2]. -/
noncomputable def pairwiseHaversineSum (results : List (ℝ × ℝ)) : ℝ :=
  ((List.range (results.length - 1)).map
    (fun i => calculateDistance (results.getD i (0, 0)) (results.getD (i + 1) (0, 0)))).sum

/-- The body of the fetchCoords resolution loop: each place is geocoded in list
order; when the provider returns a first feature its center is pushed onto the
results, otherwise the place is skipped.  The network call is abstracted as an
oracle geo from place name to optional coordinate (features[0].center). -/
def fetchCoordsLoop (geo : String → Option (ℚ × ℚ)) :
    List String → List (ℚ × ℚ) → List (ℚ × ℚ)
  | [], results => results
  | place :: rest, results =>
    match geo place with
    | some c => fetchCoordsLoop geo rest (results ++ [c])
    | none => fetchCoordsLoop geo rest results

/-- fetchCoords starts from an empty results array. -/
def fetchCoordsRun (geo : String → Option (ℚ × ℚ)) (places : List String) : List (ℚ × ℚ) :=
  fetchCoordsLoop geo places []

/-- State of the suggestion effect: one ignore flag per issued autocomplete
query (index = issue order, each effect instance owns a captured ignore
variable), plus the visible suggestion list. -/
structure AutoState where
  flags : List Bool
  sugg : List String
  deriving DecidableEq

/-- The effect cleanup runs for the previous effect instance when a new one
starts: it sets the ignore flag of that instance to true. -/
def markLastIgnored : List Bool → List Bool
  | [] => []
  | [_] => [true]
  | b :: rest => b :: markLastIgnored rest

/-- Events of the suggestion pipeline: a new query is issued (the cleanup of
the previous instance sets its ignore flag, the new instance starts with
ignore = false), a response for query tok arrives with a feature list, or the
request for query tok fails. -/
inductive AEv where
  | issue
  | arrive (tok : Nat) (payload : List String)
  | arriveFail (tok : Nat)
  deriving DecidableEq

/-- One step of the suggestion effect.  A response only calls setSuggestions
when the ignore flag of the issuing instance is still false; the failure branch
likewise clears the list only when not ignored. -/
def astep (s : AutoState) : AEv → AutoState
  | .issue => { s with flags := markLastIgnored s.flags ++ [false] }
  | .arrive tok payload =>
    if s.flags.getD tok true = false then { s with sugg := payload } else s
  | .arriveFail tok =>
    if s.flags.getD tok true = false then { s with sugg := [] } else s

/-- Run the pipeline from the initial state (no queries issued, empty list). -/
def arun (evs : List AEv) : AutoState :=
  evs.foldl astep ⟨[], []⟩

/-- The per-effect-instance closure of the enhanced animation effect: the local
animationFrame variable, the animated marker, the route source/layer flags
(collapsed to one flag since layer and source live together), the segment index
i, the timing of the current animateSegment call, progressCoords, and the id of
the single frame callback currently scheduled by this closure, if any. -/
structure Closure where
  frameVar : Option Nat
  marker : Nat
  routeAdded : Bool
  i : Nat
  segStart : ℚ
  duration : ℚ
  progress : List (ℚ × ℚ)
  outstanding : Option Nat
  deriving DecidableEq

/-- animationStateRef.current. -/
structure RefState where
  isPaused : Bool
  currentFrame : Option Nat
  deriving DecidableEq

/-- The world: React state (coords, animating, animationRequested,
animationPaused, animationSpeed), the shared animationStateRef, the active
effect closure, the host scheduler (pending requestAnimationFrame callback ids
and a fresh-id counter), and the map visuals (animated marker ids on the map, a
fresh marker counter, the count of static markers, and whether a route
source/layer exists). -/
structure W where
  coords : List (ℚ × ℚ)
  animating : Bool
  requested : Bool
  paused : Bool
  speed : ℚ
  ref : RefState
  closure : Option Closure
  pending : List Nat
  nextId : Nat
  animMarkers : List Nat
  nextMarker : Nat
  staticMarkers : Nat
  routeOn : Bool
  deriving DecidableEq

/-- requestAnimationFrame: registers a fresh callback id with the host. -/
def schedule (w : W) : W × Nat :=
  ({ w with pending := w.pending ++ [w.nextId], nextId := w.nextId + 1 }, w.nextId)

/-- Entering animateSegment: startTime = performance.now(), duration =
baseDuration 3500 / animationSpeed, and the first frame is scheduled with its
id stored in the animationFrame variable. -/
def animateSegmentStart (now : ℚ) (w : W) (cl : Closure) : W :=
  let p := schedule w
  { p.1 with
    closure := some { cl with
      segStart := now
      duration := 3500 / w.speed
      frameVar := some p.2
      outstanding := some p.2 } }

/-- The cleanup function returned by the animation effect: cancels the callback
id held in the animationFrame variable (and nothing else: an id recorded only
in animationStateRef.current.currentFrame is not cancelled), removes the
animated marker, and removes the route layer/source if this closure added them.
It does not touch animating, animationRequested, animationPaused or the ref. -/
def cleanup (w : W) : W :=
  match w.closure with
  | none => w
  | some cl =>
    { w with
      pending := match cl.frameVar with
        | some f => w.pending.erase f
        | none => w.pending,
      animMarkers := w.animMarkers.erase cl.marker,
      routeOn := if cl.routeAdded then false else w.routeOn,
      closure := none }

/-- The body of the animation effect: guarded by animationRequested and
coords.length ≥ 2; otherwise it resets pause state and the shared ref, removes
any previous route and the static markers, creates the animated marker at
coords[0], sets animating, flies to the start and (after the camera settles,
collapsed here into one step) adds the progressive route source/layer and
starts animating segment 0. -/
def effectRun (now : ℚ) (w : W) : W :=
  if w.requested = false ∨ w.coords.length < 2 then w
  else
    let w1 := { w with
      paused := false
      ref := ⟨false, none⟩
      routeOn := false
      staticMarkers := 0 }
    let m := w1.nextMarker
    let w2 := { w1 with
      animMarkers := w1.animMarkers ++ [m]
      nextMarker := m + 1
      animating := true }
    let cl : Closure := { frameVar := none, marker := m, routeAdded := true, i := 0,
                          segStart := now, duration := 3500 / w.speed,
                          progress := [w.coords.getD 0 (0, 0)], outstanding := none }
    animateSegmentStart now w2 cl

/-- setCoords while the effect is mounted: React runs the cleanup of the
current effect instance, then re-runs the effect body with the new deps. -/
def coordsChange (now : ℚ) (newCoords : List (ℚ × ℚ)) (w : W) : W :=
  effectRun now { cleanup w with coords := newCoords }

/-- The Start Animation button: disabled while animating or with fewer than two
coordinates (clicking is then a no-op); otherwise it sets animationRequested,
which mounts the animation effect. -/
def startClick (now : ℚ) (w : W) : W :=
  if w.animating = true ∨ w.coords.length < 2 then w
  else effectRun now { w with requested := true }

/-- The speed range input: disabled while animating, otherwise stores the
selected multiplier. -/
def setSpeed (v : ℚ) (w : W) : W :=
  if w.animating = true then w else { w with speed := v }

/-- The play/pause button (rendered only while animating) flips animationPaused;
the pause effect copies the flag into animationStateRef.current.isPaused. -/
def pauseToggle (w : W) : W :=
  if w.animating = true then
    { w with paused := !w.paused, ref := { w.ref with isPaused := !w.paused } }
  else w

/-- Natural completion: setAnimating(false), setAnimationRequested(false),
showAllMarkersAndRoute (removes the animated marker, replaces the progressive
route by the full static one, places a static marker per coordinate); the
change of animationRequested then makes React run the effect cleanup, after
which the effect guard fails. -/
def completeRun (w : W) (cl : Closure) : W :=
  cleanup { w with
    animating := false
    requested := false
    animMarkers := w.animMarkers.erase cl.marker
    routeOn := true
    staticMarkers := w.coords.length
    closure := some cl }

/-- One frame callback of the active closure firing at wall-clock time now.
The paused branch reschedules and records the new id only in
animationStateRef.current.currentFrame.  The running branch recomputes t; while
t < 1 it reschedules through the animationFrame variable; at t = 1 it appends
the segment end to progressCoords and either starts the next segment or
completes the route. -/
def tick (now : ℚ) (w : W) : W :=
  match w.closure with
  | none => w
  | some cl =>
    match cl.outstanding with
    | none => w
    | some fid =>
      let w0 := { w with pending := w.pending.erase fid }
      if w.ref.isPaused then
        let p := schedule w0
        { p.1 with
          ref := { p.1.ref with currentFrame := some p.2 }
          closure := some { cl with outstanding := some p.2 } }
      else
        if computeT cl.segStart cl.duration now < 1 then
          let p := schedule w0
          { p.1 with
            closure := some { cl with frameVar := some p.2, outstanding := some p.2 } }
        else
          let cl1 : Closure := { cl with
            i := cl.i + 1
            progress := cl.progress ++ [w.coords.getD (cl.i + 1) (0, 0)]
            outstanding := none }
          if cl1.i < w.coords.length - 1 then
            animateSegmentStart now { w0 with closure := some cl1 } cl1
          else
            completeRun { w0 with closure := some cl1 } cl1

/-- The segment loop of animateRoute restricted to its effect on progressCoords:
while i < coords.length - 1, animating segment i ends by pushing coords[i + 1]
onto progressCoords and advancing i. -/
def runSegments (coords : List (ℚ × ℚ)) (i : Nat) (progress : List (ℚ × ℚ)) :
    List (ℚ × ℚ) :=
  if i < coords.length - 1 then
    runSegments coords (i + 1) (progress ++ [coords.getD (i + 1) (0, 0)])
  else progress
termination_by coords.length - 1 - i

/-- Structural model of JavaScript String.prototype.trim: strip whitespace from
both ends (stated over the character list so that it evaluates). -/
def jsTrim (s : String) : String :=
  ⟨((s.data.dropWhile Char.isWhitespace).reverse.dropWhile Char.isWhitespace).reverse⟩

/-- State read by handleAddPlace: the input text, the confirmed place list and
the current suggestion list (represented by the place_name of each feature). -/
structure AddState where
  input : String
  places : List String
  suggestions : List String
  deriving DecidableEq

/-- handleAddPlace: empty trimmed input is a no-op; a suggestion whose
place_name equals the trimmed input is appended and input/suggestions cleared;
otherwise, when the access token is missing or the suggestion list is empty,
the trimmed input itself is appended; otherwise nothing happens. -/
def handleAddPlace (hasToken : Bool) (s : AddState) : AddState :=
  let trimmedInput := jsTrim s.input
  if trimmedInput = "" then s
  else
    match s.suggestions.find? (fun n => n == trimmedInput) with
    | some m => { input := "", places := s.places ++ [m], suggestions := [] }
    | none =>
      if hasToken = false ∨ s.suggestions.length = 0 then
        { input := "", places := s.places ++ [trimmedInput], suggestions := [] }
      else s

/-- min attribute of the speed range input. -/
def speedMin : ℚ := 1/2

/-- max attribute of the speed range input. -/
def speedMax : ℚ := 3

/-- step attribute of the speed range input. -/
def speedStep : ℚ := 1/2

/-- Values selectable through the speed range input (type=range, min=0.5,
max=3, step=0.5): the minimum plus a whole number of steps, up to the maximum. -/
def speedSelectable (v : ℚ) : Prop :=
  ∃ k : ℕ, v = speedMin + k * speedStep ∧ v ≤ speedMax

/-- Well-formedness of the scheduler and marker bookkeeping: callback ids and
marker ids are unique and below their counters. -/
def WFW (w : W) : Prop :=
  w.pending.Nodup ∧ (∀ f ∈ w.pending, f < w.nextId) ∧
  w.animMarkers.Nodup ∧ (∀ m ∈ w.animMarkers, m < w.nextMarker) ∧
  (∀ cl ∈ w.closure.toList,
    cl.marker < w.nextMarker ∧ ∀ f ∈ cl.frameVar.toList, f < w.nextId)

/-- An idle world over a given coordinate list. -/
def idleW (cs : List (ℚ × ℚ)) : W :=
  { coords := cs, animating := false, requested := false, paused := false,
    speed := 1, ref := ⟨false, none⟩, closure := none, pending := [], nextId := 0,
    animMarkers := [], nextMarker := 0, staticMarkers := 0, routeOn := false }

/-- A session started over two coordinates, then paused, with one frame fired
while paused (so the live callback id sits only in the shared ref). -/
def pausedMidW : W :=
  tick 1000 (pauseToggle (startClick 0 (idleW [(0, 0), (1, 1)])))

/-- The coordinate list then changes while the session is paused. -/
def afterInvalidateW : W :=
  coordsChange 5000 [(0, 0), (2, 2)] pausedMidW

end TravelApp

namespace TravelApp

theorem fetchCoordsLoop_eq_append_filterMap (geo : String → Option (ℚ × ℚ))
    (places : List String) :
    ∀ acc, fetchCoordsLoop geo places acc = acc ++ places.filterMap geo := by
  induction places with
  | nil => intro acc; simp [fetchCoordsLoop]
  | cons p rest ih =>
    intro acc
    cases h : geo p with
    | none => simp [fetchCoordsLoop, h, ih]
    | some c => simp [fetchCoordsLoop, h, ih]

theorem foldl_add_eq_sum (f : ℕ → ℝ) (l : List ℕ) :
    ∀ init : ℝ, l.foldl (fun acc i => acc + f i) init = init + (l.map f).sum := by
  induction l with
  | nil => intro init; simp
  | cons a rest ih => intro init; simp [List.foldl_cons, ih]; ring

/-- Reachable shape of the ignore flags: either no query was ever issued, or
every instance but the most recent one has been marked ignored. -/
def flagsOk (fl : List Bool) : Prop :=
  fl = [] ∨ ∃ n, fl = List.replicate n true ++ [false]

theorem markLastIgnored_shape (n : ℕ) :
    markLastIgnored (List.replicate n true ++ [false]) = List.replicate (n + 1) true := by
  induction n with
  | zero => rfl
  | succ n ih =>
    rw [List.replicate_succ, List.cons_append]
    cases hn : List.replicate n true ++ [false] with
    | nil => simp at hn
    | cons c cs =>
      rw [hn] at ih
      simp only [markLastIgnored, ih]
      simp [List.replicate_succ]

theorem flagsOk_astep {s : AutoState} (h : flagsOk s.flags) (e : AEv) :
    flagsOk (astep s e).flags := by
  cases e with
  | issue =>
    rcases h with h | ⟨n, h⟩
    · exact Or.inr ⟨0, by simp [astep, h, markLastIgnored]⟩
    · exact Or.inr ⟨n + 1, by simp [astep, h, markLastIgnored_shape]⟩
  | arrive tok p =>
    simp only [astep]
    split <;> simpa using h
  | arriveFail tok =>
    simp only [astep]
    split <;> simpa using h

theorem arun_flagsOk (evs : List AEv) : flagsOk (arun evs).flags := by
  have main : ∀ (l : List AEv) (s0 : AutoState), flagsOk s0.flags →
      flagsOk (l.foldl astep s0).flags := by
    intro l
    induction l with
    | nil => intro s0 h0; simpa using h0
    | cons e rest ih => intro s0 h0; exact ih (astep s0 e) (flagsOk_astep h0 e)
  exact main evs ⟨[], []⟩ (Or.inl rfl)

theorem getD_replicate_false (n tok : ℕ) :
    ((List.replicate n true ++ [false]).getD tok true = false) ↔ tok = n := by
  induction n generalizing tok with
  | zero =>
    cases tok <;> simp [List.getD]
  | succ n ih =>
    cases tok with
    | zero => simp [List.replicate_succ]
    | succ t =>
      rw [List.replicate_succ, List.cons_append]
      simpa using ih t

/-- C9: the ease-in-out cubic satisfies f(0) = 0, f(1) = 1, and is monotonically
non-decreasing on the interval [0, 1]. -/
theorem easing_properties :
    easeInOutCubic 0 = 0 ∧ easeInOutCubic 1 = 1 ∧
    ∀ x y : ℚ, 0 ≤ x → x ≤ y → y ≤ 1 → easeInOutCubic x ≤ easeInOutCubic y := by
  refine ⟨by norm_num [easeInOutCubic], by norm_num [easeInOutCubic], ?_⟩
  intro x y hx hxy hy1
  unfold easeInOutCubic
  split_ifs with h1 h2 h2
  · nlinarith [mul_nonneg (sub_nonneg.mpr hxy) (sq_nonneg (x + y)),
      mul_nonneg (sub_nonneg.mpr hxy) (sq_nonneg x),
      mul_nonneg (sub_nonneg.mpr hxy) (sq_nonneg y)]
  · have hy2 : (0:ℚ) ≤ 2 - 2 * y := by linarith
    have hy3 : 2 - 2 * y ≤ 1 := by linarith
    nlinarith [mul_nonneg hy2 hy2, mul_nonneg (mul_nonneg hy2 hy2) hy2,
      mul_nonneg hx hx, mul_nonneg (mul_nonneg hx hx) hx,
      mul_nonneg (sub_nonneg.mpr (le_of_lt h1)) (mul_nonneg hx hx),
      mul_nonneg (sub_nonneg.mpr hy3) (mul_nonneg hy2 hy2)]
  · exact absurd (lt_of_le_of_lt hxy h2) h1
  · have hax : (0:ℚ) ≤ 2 - 2 * y := by linarith
    have hab : 2 - 2 * y ≤ 2 - 2 * x := by linarith
    nlinarith [mul_nonneg (sub_nonneg.mpr hab) (sq_nonneg ((2 - 2*y) + (2 - 2*x))),
      mul_nonneg (sub_nonneg.mpr hab) (sq_nonneg (2 - 2*y)),
      mul_nonneg (sub_nonneg.mpr hab) (sq_nonneg (2 - 2*x))]

/-- Witness for C9 at concrete points: 0 ≤ 1/4 ≤ 3/4 ≤ 1 and monotonicity there. -/
theorem easing_properties_witness :
    easeInOutCubic (1/4) ≤ easeInOutCubic (3/4) :=
  easing_properties.2.2 (1/4) (3/4) (by norm_num) (by norm_num) (by norm_num)

/-- C1: evaluation of the timing code at the failing input.  Segment duration
3500 ms (speed 1), startTime = 0.  The user pauses at now = 1400 ms, where the
code has computed t = 0.4; frames during the pause leave t frozen; the user
resumes after a wall-clock delay of 3500 ms, and the next running frame arrives
at now = 4916 ms.  The code then computes t = 1 (the segment jumps straight to
its end), although only 16 ms of genuine running time elapsed since t = 0.4, so
the drift-free value required by the claim, 0.4 + 16/3500, is well below 1. -/
theorem pause_resume_jumps_by_paused_delay :
    computeT 0 3500 1400 = 2/5 ∧
    frameT true 0 3500 2900 (2/5) = 2/5 ∧
    frameT false 0 3500 4916 (2/5) = 1 ∧
    (2/5 + 16/3500 : ℚ) < 1 := by
  refine ⟨?_, ?_, ?_, by norm_num⟩
  · unfold computeT
    norm_num
  · rfl
  · unfold frameT computeT
    norm_num

/-- C2: a response updates the visible suggestion list exactly when its query is
the most recently issued one (its instance is the single non-ignored one, which
for a reachable state means its token is the last index of the flag list); a
response to a superseded query leaves the state unchanged, regardless of
arrival order.  In particular, issuing "A" then "AB" before the response for
"A" arrives leaves the final suggestion list reflecting only the response for
"AB", whichever response arrives first. -/
theorem autocomplete_last_issued_wins :
    (∀ (evs : List AEv) (tok : Nat) (payload : List String),
      astep (arun evs) (AEv.arrive tok payload) =
        if tok + 1 = (arun evs).flags.length then { arun evs with sugg := payload }
        else arun evs) ∧
    (∀ pA pAB : List String,
      (arun [.issue, .issue, .arrive 0 pA, .arrive 1 pAB]).sugg = pAB ∧
      (arun [.issue, .issue, .arrive 1 pAB, .arrive 0 pA]).sugg = pAB) := by
  constructor
  · intro evs tok payload
    rcases arun_flagsOk evs with h | ⟨n, h⟩
    · simp [astep, h]
    · have hlen : (arun evs).flags.length = n + 1 := by rw [h]; simp
      by_cases htok : tok = n
      · have hc : (arun evs).flags.getD tok true = false := by
          rw [h, htok]
          exact (getD_replicate_false n n).mpr rfl
        have h2 : tok + 1 = (arun evs).flags.length := by rw [hlen, htok]
        simp only [astep]
        rw [if_pos hc, if_pos h2]
      · have hc : ¬ (arun evs).flags.getD tok true = false := by
          rw [h]
          exact fun hfalse => htok ((getD_replicate_false n tok).mp hfalse)
        have h2 : ¬ tok + 1 = (arun evs).flags.length := by
          rw [hlen]
          omega
        simp only [astep]
        rw [if_neg hc, if_neg h2]
  · exact fun pA pAB => ⟨rfl, rfl⟩

/-- C5 counterexample: start a session over two coordinates, pause it, let one
frame fire while paused (the rescheduled callback id 1 is recorded only in
animationStateRef.current.currentFrame; the animationFrame variable still holds
the already-fired id 0), then change the coordinate list.  The cleanup cancels
only id 0, so the live callback id 1 of the invalidated session is still pending
afterwards, and the controller is not Idle: a fresh session (marker 1, callback
id 2) starts immediately because animationRequested was never cleared. -/
theorem invalidation_leaves_stray_frame_and_restarts :
    pausedMidW.ref.currentFrame = some 1 ∧
    pausedMidW.pending = [1] ∧
    afterInvalidateW.pending = [1, 2] ∧
    afterInvalidateW.animating = true ∧
    afterInvalidateW.closure ≠ none ∧
    (∀ cl ∈ afterInvalidateW.closure.toList,
      cl.outstanding = some 2 ∧ cl.frameVar = some 2 ∧ cl.marker = 1) := by
  decide

/-- C5 (amended): when the coordinate list changes during an active session the
effect cleanup removes the animated marker and route layer of the session and
cancels the callback id recorded in the animationFrame variable, but a callback
recorded only in animationStateRef.current.currentFrame (the pause branch)
survives, and the controller does not return to Idle: with the start request
still active a new session begins whenever the new list has at least two
coordinates, and otherwise the stale animating flag simply persists. -/
theorem effectRun_fields (now : ℚ) (w : W)
    (h : ¬ (w.requested = false ∨ w.coords.length < 2)) :
    (effectRun now w).pending = w.pending ++ [w.nextId] ∧
    (effectRun now w).animMarkers = w.animMarkers ++ [w.nextMarker] ∧
    (effectRun now w).animating = true ∧
    (effectRun now w).closure ≠ none ∧
    (∀ c ∈ (effectRun now w).closure.toList, c.duration = 3500 / w.speed) := by
  unfold effectRun
  rw [if_neg h]
  refine ⟨rfl, rfl, rfl, ?_, ?_⟩
  · simp [animateSegmentStart, schedule]
  · simp [animateSegmentStart, schedule]

theorem invalidation_teardown_amended (now : ℚ) (w : W) (cl : Closure)
    (newCoords : List (ℚ × ℚ)) (hwf : WFW w) (hcl : w.closure = some cl)
    (hroute : cl.routeAdded = true) :
    (cleanup w).routeOn = false ∧
    cl.marker ∉ (coordsChange now newCoords w).animMarkers ∧
    (∀ f, cl.frameVar = some f → f ∉ (coordsChange now newCoords w).pending) ∧
    (∀ g, w.ref.currentFrame = some g → g ∈ w.pending →
      (∀ f, cl.frameVar = some f → g ≠ f) →
      g ∈ (coordsChange now newCoords w).pending) ∧
    (w.requested = true → 2 ≤ newCoords.length →
      (coordsChange now newCoords w).closure ≠ none ∧
      (coordsChange now newCoords w).animating = true) ∧
    (w.requested = false ∨ newCoords.length < 2 →
      (coordsChange now newCoords w).animating = w.animating ∧
      (coordsChange now newCoords w).closure = none) := by
  obtain ⟨hnd, hbound, hmnd, hmbound, hclw⟩ := hwf
  obtain ⟨hmk, hfv⟩ := hclw cl (by simp [hcl])
  have hpend : ∀ f, cl.frameVar = some f → f ∉ (cleanup w).pending := by
    intro f hf
    simp only [cleanup, hcl, hf]
    exact hnd.not_mem_erase
  have hpend2 : ∀ g, g ∈ w.pending → (∀ f, cl.frameVar = some f → g ≠ f) →
      g ∈ (cleanup w).pending := by
    intro g hg hne
    simp only [cleanup, hcl]
    cases hf : cl.frameVar with
    | none => simpa using hg
    | some f => simpa using (List.mem_erase_of_ne (hne f hf)).mpr hg
  have hmark : cl.marker ∉ (cleanup w).animMarkers := by
    simp only [cleanup, hcl]
    exact hmnd.not_mem_erase
  have hroute2 : (cleanup w).routeOn = false := by
    simp [cleanup, hcl, hroute]
  have hreqc : (cleanup w).requested = w.requested := by simp [cleanup, hcl]
  have hanimc : (cleanup w).animating = w.animating := by simp [cleanup, hcl]
  have hnidc : (cleanup w).nextId = w.nextId := by simp [cleanup, hcl]
  have hnmc : (cleanup w).nextMarker = w.nextMarker := by simp [cleanup, hcl]
  have hclnone : (cleanup w).closure = none := by simp [cleanup, hcl]
  set wc : W := { cleanup w with coords := newCoords } with hwcdef
  have hwcreq : wc.requested = w.requested := hreqc
  have hwccoords : wc.coords = newCoords := rfl
  have hchange : coordsChange now newCoords w = effectRun now wc := rfl
  by_cases hguard : w.requested = false ∨ newCoords.length < 2
  · have hcond : wc.requested = false ∨ wc.coords.length < 2 := by
      rw [hwcreq, hwccoords]
      exact hguard
    have hrun : effectRun now wc = wc := by
      unfold effectRun
      rw [if_pos hcond]
    refine ⟨hroute2, ?_, ?_, ?_, ?_, ?_⟩
    · rw [hchange, hrun]
      exact hmark
    · intro f hf
      rw [hchange, hrun]
      exact hpend f hf
    · intro g hg hgp hne
      rw [hchange, hrun]
      exact hpend2 g hgp hne
    · intro hreq hlen
      exfalso
      rcases hguard with h | h
      · rw [hreq] at h
        exact Bool.noConfusion h
      · omega
    · intro _
      rw [hchange, hrun]
      exact ⟨hanimc, hclnone⟩
  · have hcond : ¬ (wc.requested = false ∨ wc.coords.length < 2) := by
      rw [hwcreq, hwccoords]
      exact hguard
    push_neg at hguard
    have hreq : w.requested = true := by
      rcases hguard with ⟨h1, _⟩
      cases hr : w.requested with
      | false => exact absurd hr h1
      | true => rfl
    obtain ⟨hef1, hef2, hef3, hef4, _⟩ := effectRun_fields now wc hcond
    refine ⟨hroute2, ?_, ?_, ?_, ?_, ?_⟩
    · rw [hchange, hef2]
      intro hmem
      rcases List.mem_append.mp hmem with h | h
      · exact hmark h
      · have h1 : cl.marker = wc.nextMarker := by simpa using h
        have h2 : wc.nextMarker = w.nextMarker := hnmc
        omega
    · intro f hf
      rw [hchange, hef1]
      intro hmem
      rcases List.mem_append.mp hmem with h | h
      · exact hpend f hf h
      · have h1 : f = wc.nextId := by simpa using h
        have h2 : wc.nextId = w.nextId := hnidc
        have h3 : f < w.nextId := hfv f (by simp [hf])
        omega
    · intro g hg hgp hne
      rw [hchange, hef1]
      exact List.mem_append.mpr (Or.inl (hpend2 g hgp hne))
    · intro _ _
      rw [hchange]
      exact ⟨hef4, hef3⟩
    · intro h
      exfalso
      rcases h with h | h
      · rw [hreq] at h
        exact Bool.noConfusion h
      · omega

/-- A concrete paused session over two coordinates: the live callback id 1 is
recorded only in the shared ref, the animationFrame variable holds the
already-fired id 0. -/
def wPausedWit : W :=
  { coords := [(0, 0), (1, 1)], animating := true, requested := true, paused := true,
    speed := 1, ref := ⟨true, some 1⟩,
    closure := some { frameVar := some 0, marker := 0, routeAdded := true, i := 0,
                      segStart := 0, duration := 3500, progress := [(0, 0)],
                      outstanding := some 1 },
    pending := [1], nextId := 2, animMarkers := [0], nextMarker := 1,
    staticMarkers := 0, routeOn := true }

/-- Witness for the amended C5 theorem at a concrete paused session. -/
theorem invalidation_teardown_amended_witness :
    (cleanup wPausedWit).routeOn = false ∧
    0 ∉ (coordsChange 5000 [(0, 0), (2, 2)] wPausedWit).animMarkers ∧
    (coordsChange 5000 [(0, 0), (2, 2)] wPausedWit).closure ≠ none := by
  have h := invalidation_teardown_amended 5000 wPausedWit
    { frameVar := some 0, marker := 0, routeAdded := true, i := 0,
      segStart := 0, duration := 3500, progress := [(0, 0)],
      outstanding := some 1 }
    [(0, 0), (2, 2)] (by unfold WFW; decide) rfl rfl
  exact ⟨h.1, h.2.1, (h.2.2.2.2.1 rfl (by decide)).1⟩

/-- C6: a start request with fewer than two resolved coordinates, or while a
session is already active (animating), leaves the whole state unchanged: no
second session is created and an Idle state stays Idle (the handler is a total
function, so no exception is surfaced). -/
theorem invalid_start_is_noop (now : ℚ) (w : W)
    (h : w.coords.length < 2 ∨ w.animating = true) :
    startClick now w = w := by
  unfold startClick
  rcases h with h | h
  · rw [if_pos (Or.inr h)]
  · rw [if_pos (Or.inl h)]

/-- Witness for C6: one resolved coordinate, Idle state. -/
theorem invalid_start_is_noop_witness :
    startClick 0 (idleW [(0, 0)]) = idleW [(0, 0)] :=
  invalid_start_is_noop 0 (idleW [(0, 0)]) (Or.inl (by decide))

theorem runSegments_take (coords : List (ℚ × ℚ)) :
    ∀ (k i : ℕ), k = coords.length - 1 - i → i < coords.length →
      runSegments coords i (coords.take (i + 1)) = coords := by
  intro k
  induction k with
  | zero =>
    intro i hk hi
    rw [runSegments, if_neg (by omega)]
    exact List.take_of_length_le (by omega)
  | succ k ih =>
    intro i hk hi
    have hlt : i < coords.length - 1 := by omega
    have hlen2 : i + 1 < coords.length := by omega
    rw [runSegments, if_pos hlt]
    have hstep : coords.take (i + 1) ++ [coords.getD (i + 1) (0, 0)] =
        coords.take (i + 1 + 1) := by
      have h1 : coords[i + 1]? = some coords[i + 1] := List.getElem?_eq_getElem hlen2
      have h2 : coords.getD (i + 1) (0, 0) = coords[i + 1] := by
        simp [List.getD, h1]
      rw [h2]
      conv_rhs => rw [List.take_succ]
      rw [h1]
      simp
    rw [hstep]
    exact ih (i + 1) (by omega) (by omega)

/-- C7: a session over n ≥ 2 coordinates that runs to natural completion has
confirmed exactly the full input coordinate list: progressCoords starts at
coords[0] and each segment appends the next coordinate in order. -/
theorem completion_confirms_full_route (coords : List (ℚ × ℚ))
    (h : 2 ≤ coords.length) :
    runSegments coords 0 [coords.getD 0 (0, 0)] = coords := by
  have h0 : coords.take 1 = [coords.getD 0 (0, 0)] := by
    cases coords with
    | nil => simp at h
    | cons a rest => simp [List.getD]
  have := runSegments_take coords (coords.length - 1 - 0) 0 rfl (by omega)
  rwa [h0] at this

/-- Witness for C7 on a three-stop route. -/
theorem completion_confirms_full_route_witness :
    runSegments [((0 : ℚ), 0), (1, 1), (2, 2)] 0
      [([((0 : ℚ), 0), (1, 1), (2, 2)] : List (ℚ × ℚ)).getD 0 (0, 0)] =
      [((0 : ℚ), 0), (1, 1), (2, 2)] :=
  completion_confirms_full_route [((0 : ℚ), 0), (1, 1), (2, 2)] (by decide)

/-- C8 counterexample: 2.5 = 0.5 + 4 steps of 0.5 is selectable on the speed
range input yet does not belong to the set {0.5, 1, 1.5, 2, 3} stated by the
claim. -/
theorem speed_two_point_five_selectable :
    speedSelectable (5/2) ∧
    ¬ ((5/2 : ℚ) = 1/2 ∨ (5/2 : ℚ) = 1 ∨ (5/2 : ℚ) = 3/2 ∨
       (5/2 : ℚ) = 2 ∨ (5/2 : ℚ) = 3) := by
  constructor
  · exact ⟨4, by norm_num [speedMin, speedStep], by norm_num [speedMax]⟩
  · norm_num

/-- C8 (amended): the speed multiplier is selectable exactly from the discrete
set {0.5, 1, 1.5, 2, 2.5, 3}; it is immutable while a session is active
(the range input is disabled) and mutable while idle; and a freshly started
segment uses effective duration baseDuration 3500 divided by the selected
multiplier, raw t being min(elapsed / duration, 1). -/
theorem speed_contract_amended :
    (∀ v : ℚ, speedSelectable v ↔
      (v = 1/2 ∨ v = 1 ∨ v = 3/2 ∨ v = 2 ∨ v = 5/2 ∨ v = 3)) ∧
    (∀ (w : W) (v : ℚ), w.animating = true → setSpeed v w = w) ∧
    (∀ (w : W) (v : ℚ), w.animating = false → (setSpeed v w).speed = v) ∧
    (∀ (now : ℚ) (w : W), w.requested = true → 2 ≤ w.coords.length →
      ∀ c ∈ (effectRun now w).closure.toList, c.duration = 3500 / w.speed) ∧
    (∀ startTime el sp : ℚ,
      computeT startTime (3500 / sp) (startTime + el) = min (el / (3500 / sp)) 1) := by
  refine ⟨?_, ?_, ?_, ?_, ?_⟩
  · intro v
    constructor
    · rintro ⟨k, hv, hle⟩
      rw [speedMin, speedStep] at hv
      rw [speedMax] at hle
      have hk5 : k ≤ 5 := by
        by_contra hk
        push_neg at hk
        have hk6 : (6 : ℚ) ≤ (k : ℚ) := by exact_mod_cast hk
        rw [hv] at hle
        linarith
      interval_cases k <;> rw [hv] <;> norm_num
    · rintro (h | h | h | h | h | h) <;> subst h
      · exact ⟨0, by norm_num [speedMin, speedStep], by norm_num [speedMax]⟩
      · exact ⟨1, by norm_num [speedMin, speedStep], by norm_num [speedMax]⟩
      · exact ⟨2, by norm_num [speedMin, speedStep], by norm_num [speedMax]⟩
      · exact ⟨3, by norm_num [speedMin, speedStep], by norm_num [speedMax]⟩
      · exact ⟨4, by norm_num [speedMin, speedStep], by norm_num [speedMax]⟩
      · exact ⟨5, by norm_num [speedMin, speedStep], by norm_num [speedMax]⟩
  · intro w v h
    unfold setSpeed
    rw [if_pos h]
  · intro w v h
    unfold setSpeed
    rw [if_neg]
    rw [h]
    exact Bool.noConfusion
  · intro now w hreq hlen
    have hcond : ¬ (w.requested = false ∨ w.coords.length < 2) := by
      rw [hreq]
      push_neg
      exact ⟨Bool.noConfusion, by omega⟩
    exact (effectRun_fields now w hcond).2.2.2.2
  · intro startTime el sp
    unfold computeT
    rw [add_sub_cancel_left]

/-- An idle two-coordinate world with a start request active and speed 2. -/
def wReqWit : W :=
  { idleW [(0, 0), (1, 1)] with requested := true, speed := 2 }

/-- Witness for the amended C8 theorem: the speed input ignores changes while
animating, and a session started at speed 2 runs its segment with duration
3500 / 2. -/
theorem speed_contract_amended_witness :
    setSpeed 2 wPausedWit = wPausedWit ∧
    (∀ c ∈ (effectRun 0 wReqWit).closure.toList, c.duration = 3500 / wReqWit.speed) :=
  ⟨speed_contract_amended.2.1 wPausedWit 2 rfl,
   speed_contract_amended.2.2.2.1 0 wReqWit rfl (by decide)⟩

/-- C3: for a coordinate list of length n, the stored estimate is (0, 0) when
n < 2, and otherwise the distance is the sum of calculateDistance over the
consecutive pairs (Earth radius 6371 km inside calculateDistance) with
eta = distance / 60. -/
theorem distance_eta_estimate (results : List (ℝ × ℝ)) :
    (results.length < 2 → distanceAndEta results = (0, 0)) ∧
    (2 ≤ results.length →
      distanceAndEta results =
        (pairwiseHaversineSum results, pairwiseHaversineSum results / 60)) := by
  constructor
  · intro h
    have : ¬ 1 < results.length := by omega
    simp [distanceAndEta, this]
  · intro h
    have h1 : 1 < results.length := by omega
    have hsum : totalDistLoop results = pairwiseHaversineSum results := by
      unfold totalDistLoop pairwiseHaversineSum
      rw [foldl_add_eq_sum]
      simp
    simp [distanceAndEta, h1, hsum]

/-- Witness for C3 at a concrete two-point list. -/
theorem distance_eta_estimate_witness :
    2 ≤ ([((0:ℝ), 0), (1, 1)] : List (ℝ × ℝ)).length ∧
    distanceAndEta [((0:ℝ), 0), (1, 1)] =
      (pairwiseHaversineSum [((0:ℝ), 0), (1, 1)],
       pairwiseHaversineSum [((0:ℝ), 0), (1, 1)] / 60) :=
  ⟨by decide, (distance_eta_estimate [((0:ℝ), 0), (1, 1)]).2 (by decide)⟩

/-- C4: the resolution loop of fetchCoords resolves places sequentially in list
order and its output is exactly the list of successfully geocoded coordinates in
input order (List.filterMap of the geocoding oracle); failures are dropped, so
the output is never longer than the input and can be strictly shorter. -/
theorem resolveAll_order_and_dropping :
    (∀ (geo : String → Option (ℚ × ℚ)) (places : List String),
      fetchCoordsRun geo places = places.filterMap geo ∧
      (fetchCoordsRun geo places).length ≤ places.length) ∧
    (fetchCoordsRun (fun _ => none) ["x"]).length < (["x"] : List String).length := by
  have key : ∀ (geo : String → Option (ℚ × ℚ)) (places : List String),
      fetchCoordsRun geo places = places.filterMap geo := by
    intro geo places
    unfold fetchCoordsRun
    rw [fetchCoordsLoop_eq_append_filterMap]
    simp
  refine ⟨fun geo places => ⟨key geo places, ?_⟩, ?_⟩
  · rw [key]
    exact List.length_filterMap_le geo places
  · rw [key]
    simp

/-- C10: with a non-empty trimmed input and the geocoding credential present,
the Add action appends the raw trimmed input text to the place list whenever
the suggestion list is empty (and clears the input and suggestions), while if
the suggestion list is non-empty and none of its names equals the trimmed
input, the Add action changes nothing at all. -/
theorem add_place_gate (s : AddState) (h : jsTrim s.input ≠ "") :
    (s.suggestions = [] →
      handleAddPlace true s = ⟨"", s.places ++ [jsTrim s.input], []⟩) ∧
    (s.suggestions ≠ [] → jsTrim s.input ∉ s.suggestions →
      handleAddPlace true s = s) := by
  constructor
  · intro hs
    unfold handleAddPlace
    rw [if_neg h, hs]
    simp
  · intro hs hnot
    unfold handleAddPlace
    rw [if_neg h]
    have hfind : s.suggestions.find? (fun n => n == jsTrim s.input) = none := by
      rw [List.find?_eq_none]
      intro x hx hbeq
      exact hnot (beq_iff_eq.mp hbeq ▸ hx)
    rw [hfind]
    rw [if_neg]
    push_neg
    refine ⟨Bool.noConfusion, ?_⟩
    intro hlen
    exact hs (List.eq_nil_of_length_eq_zero hlen)

/-- Witness for C10: input "a" with no suggestions is appended verbatim even
with the credential present; input "a" against the suggestion list ["b"] is a
complete no-op. -/
theorem add_place_gate_witness :
    handleAddPlace true ⟨"a", [], []⟩ = ⟨"", [] ++ [jsTrim "a"], []⟩ ∧
    handleAddPlace true ⟨"a", [], ["b"]⟩ = ⟨"a", [], ["b"]⟩ :=
  ⟨(add_place_gate ⟨"a", [], []⟩ (by decide)).1 rfl,
   (add_place_gate ⟨"a", [], ["b"]⟩ (by decide)).2 (by decide) (by decide)⟩

end TravelApp
